import Mathlib

/-!
Verification of the SSA block-management subsystem
(`crates/noirc_evaluator/src/ssa/block.rs`).

The source file defines `BlockId`, `BasicBlock`, the three block
constructors, `link_with_target`, `compute_dom` and `bfs`.  These operate
on an `IRGenerator` construction context (arena of blocks, `first_block`
and `current_block` cursors, sealed-block set, instruction creation) whose
code lives in `code_gen.rs`, outside the sources given here; its
operations are modelled from the specification's collaborator contract
(spec §6) and are marked as such in their doc comments.

Modelling conventions:
* `arena::Index` handles become an inductive with a `dummy` sentinel and
  a numeric index; arena insertion assigns `idx (length of the arena)`.
* Rust operations that can panic (indexing a handle that does not
  resolve) return `Option`, with `none` standing for the panic.
* `HashMap`/`HashSet` become association lists / lists with explicit
  insert-or-overwrite helpers; claims proved here are insensitive to
  iteration order except where noted.
-/

/-- `BlockType` from block.rs: variant over `{Normal, ForJoin}`. -/
inductive BlockType where
  | Normal : BlockType
  | ForJoin : BlockType
deriving DecidableEq

/-- `BlockId` from block.rs: an opaque arena index.  `dummy` models
`BlockId::dummy()` (a sentinel that never resolves in the arena); `idx n`
models a real arena index, here the position in the arena's list. -/
inductive BlockId where
  | dummy : BlockId
  | idx : Nat → BlockId
deriving DecidableEq

/-- `NodeId` from node.rs (external collaborator): an opaque instruction
identifier, with the `NodeId::dummy()` sentinel. -/
inductive NodeId where
  | dummy : NodeId
  | idx : Nat → NodeId
deriving DecidableEq

/-- The only opcode block.rs ever creates: `node::Operation::Nop`. -/
inductive Operation where
  | Nop : Operation
deriving DecidableEq

/-- The only object type block.rs ever uses: `node::ObjectType::NotAnObject`. -/
inductive ObjectType where
  | NotAnObject : ObjectType
deriving DecidableEq

/-- `BasicBlock` from block.rs.  `value_map` (a Rust `HashMap<NodeId, NodeId>`)
is modelled as an association list with unique keys maintained by
`update_variable`. -/
structure BasicBlock where
  id : BlockId
  kind : BlockType
  dominator : Option BlockId
  dominated : List BlockId
  predecessor : List BlockId
  left : Option BlockId
  right : Option BlockId
  instructions : List NodeId
  value_map : List (NodeId × NodeId)
deriving DecidableEq

/-- `BasicBlock::new(prev, kind)` from block.rs: predecessor list is
`vec![prev]`, everything else empty / `None`; the `id` field is the dummy
sentinel until the arena assigns a real one at insertion. -/
def BasicBlock.new (prev : BlockId) (kind : BlockType) : BasicBlock :=
  { id := BlockId.dummy
    predecessor := [prev]
    left := none
    right := none
    instructions := []
    value_map := []
    dominator := none
    dominated := []
    kind := kind }

/-- `BasicBlock::get_current_value` from block.rs: `value_map.get(&id).copied()`. -/
def BasicBlock.get_current_value (b : BasicBlock) (id : NodeId) : Option NodeId :=
  (b.value_map.find? (fun p => p.1 = id)).map (fun p => p.2)

/-- `BasicBlock::update_variable` from block.rs:
`value_map.insert(old_value, new_value)` — HashMap insert-or-overwrite,
modelled by erasing any earlier binding of the key and prepending the new one. -/
def BasicBlock.update_variable (b : BasicBlock) (old_value new_value : NodeId) :
    BasicBlock :=
  { b with value_map :=
      (old_value, new_value) :: b.value_map.eraseP (fun p => p.1 = old_value) }

/-- `BasicBlock::get_first_instruction` from block.rs: `self.instructions[0]`.
The Rust indexing panics when `instructions` is empty; the panic is modelled
by `none`. -/
def BasicBlock.get_first_instruction (b : BasicBlock) : Option NodeId :=
  b.instructions.head?

/-- `BasicBlock::is_join` from block.rs: `self.kind == BlockType::ForJoin`. -/
def BasicBlock.is_join (b : BasicBlock) : Bool :=
  b.kind = BlockType.ForJoin

/-- Modelled from the spec: the `IRGenerator` construction context of
`code_gen.rs` (not among the given sources), restricted to what block.rs
uses (spec §6): the block arena, the "first"/"current" block cursors, the
sealed-block set, and a counter for fresh instruction identifiers. -/
structure IRGenerator where
  blocks : List BasicBlock
  first_block : BlockId
  current_block : BlockId
  sealed_blocks : List BlockId
  next_node : Nat
deriving DecidableEq

/-- Modelled from the spec: arena lookup that tolerates a missing or dummy
handle by yielding "not found" (`IRGenerator::try_get_block`, spec §6). -/
def getBlock (g : IRGenerator) (b : BlockId) : Option BasicBlock :=
  match b with
  | BlockId.dummy => none
  | BlockId.idx n => g.blocks.get? n

/-- Modelled from the spec: in-place mutation of the arena slot a handle
resolves to; leaves the context unchanged when the handle does not resolve
(the callers below that would panic in Rust on a missing handle check
resolution first and map the panic to `none`). -/
def setBlock (g : IRGenerator) (b : BlockId) (f : BasicBlock → BasicBlock) :
    IRGenerator :=
  match b with
  | BlockId.dummy => g
  | BlockId.idx n =>
    match g.blocks.get? n with
    | none => g
    | some blk => { g with blocks := g.blocks.set n (f blk) }

/-- Modelled from the spec: HashSet insert for the sealed-block set. -/
def setInsert (s : List BlockId) (x : BlockId) : List BlockId :=
  if x ∈ s then s else s ++ [x]

/-- Modelled from the spec: `igen.sealed_blocks.insert(id)` — extend the
construction context's sealed set. -/
def setSealed (g : IRGenerator) (x : BlockId) : IRGenerator :=
  { g with sealed_blocks := setInsert g.sealed_blocks x }

/-- Modelled from the spec: `igen.current_block = id` — move the "current
block" cursor. -/
def setCurrent (g : IRGenerator) (c : BlockId) : IRGenerator :=
  { g with current_block := c }

/-- Modelled from the spec: `igen.first_block = id; igen.current_block = id`
— record a handle as both cursors (used only by `create_first_block`). -/
def setCursors (g : IRGenerator) (c : BlockId) : IRGenerator :=
  { g with first_block := c, current_block := c }

/-- Modelled from the spec: `IRGenerator::insert_block` — insert a newly
built block, the arena assigns its now-valid handle (stored into the
block's `id` field) and hands it back (spec §6, §3: "id: set at insertion
time by the arena"). -/
def insert_block (g : IRGenerator) (b : BasicBlock) : IRGenerator × BlockId :=
  let id := BlockId.idx g.blocks.length
  ({ g with blocks := g.blocks ++ [{ b with id := id }] }, id)

/-- Modelled from the spec: `IRGenerator::new_instruction` — create an
instruction of the given opcode/type, returning its fresh identifier, and
append it to the current block's instruction list (spec §6 "create an
instruction … for inserting the block-entry placeholder", §3 invariant
that constructors leave `instructions` non-empty). -/
def new_instruction (g : IRGenerator) (_lhs _rhs : NodeId) (_op : Operation)
    (_t : ObjectType) : IRGenerator × NodeId :=
  let nid := NodeId.idx g.next_node
  (setBlock { g with next_node := g.next_node + 1 } g.current_block
    (fun b => { b with instructions := b.instructions ++ [nid] }), nid)

/-- `create_first_block` from block.rs: build `BasicBlock::new(dummy, Normal)`,
insert it, record its handle as both `first_block` and `current_block`,
then append the placeholder `Nop` instruction. -/
def create_first_block (g : IRGenerator) : IRGenerator :=
  let p := insert_block g (BasicBlock.new BlockId.dummy BlockType.Normal)
  let g2 := setCursors p.1 p.2
  (new_instruction g2 NodeId.dummy NodeId.dummy Operation.Nop
    ObjectType.NotAnObject).1

/-- `create_block` from block.rs: insert `BasicBlock::new(current_block, kind)`
but do not update `current_block` and do not add the placeholder
instruction.  Returns the new block's handle (the Rust function returns a
mutable reference to the stored block). -/
def create_block (g : IRGenerator) (kind : BlockType) : IRGenerator × BlockId :=
  insert_block g (BasicBlock.new g.current_block kind)

/-- `new_sealed_block` from block.rs: insert a block whose predecessor is
the current block, set its dominator to the current block, add it to the
sealed set, wire it as the current block's `left` successor, make it
current, and append the placeholder instruction.
`get_current_block_mut` is the must-succeed lookup (spec §6); `none`
models its panic when `current_block` does not resolve. -/
def new_sealed_block (g : IRGenerator) (kind : BlockType) :
    Option (IRGenerator × BlockId) :=
  let current := g.current_block
  let p := insert_block g (BasicBlock.new g.current_block kind)
  let g2 := setBlock p.1 p.2 (fun b => { b with dominator := some current })
  let g3 := setSealed g2 p.2
  match getBlock g3 current with
  | none => none
  | some _ =>
    let g4 := setBlock g3 current (fun b => { b with left := some p.2 })
    let g5 := setCurrent g4 p.2
    some ((new_instruction g5 NodeId.dummy NodeId.dummy Operation.Nop
      ObjectType.NotAnObject).1, p.2)

/-- `new_unsealed_block` from block.rs: like the sealed constructor but via
`create_block`, choosing the current block's `left` or `right` edge by the
flag, and never touching the sealed set. -/
def new_unsealed_block (g : IRGenerator) (kind : BlockType) (left : Bool) :
    Option (IRGenerator × BlockId) :=
  let current := g.current_block
  let p := create_block g kind
  let g2 := setBlock p.1 p.2 (fun b => { b with dominator := some current })
  match getBlock g2 current with
  | none => none
  | some _ =>
    let g3 := setBlock g2 current (fun b =>
      if left then { b with left := some p.2 }
      else { b with right := some p.2 })
    let g4 := setCurrent g3 p.2
    some ((new_instruction g4 NodeId.dummy NodeId.dummy Operation.Nop
      ObjectType.NotAnObject).1, p.2)

/-- `link_with_target` from block.rs: if `target` resolves
(`try_get_block_mut`), overwrite its `right` and `left` successor edges and
set the dominator of each present successor to `target`; if `target` does
not resolve, do nothing.  The Rust `igen[handle]` indexing on a present
successor panics when that handle does not resolve; the panic is modelled
by `none`. -/
def link_with_target (g : IRGenerator) (target : BlockId)
    (left right : Option BlockId) : Option IRGenerator :=
  match getBlock g target with
  | none => some g
  | some _ =>
    let g1 := setBlock g target (fun b => { b with right := right, left := left })
    let g2opt :=
      match right with
      | none => some g1
      | some r =>
        match getBlock g1 r with
        | none => none
        | some _ => some (setBlock g1 r (fun b => { b with dominator := some target }))
    match g2opt with
    | none => none
    | some g2 =>
      match left with
      | none => some g2
      | some l =>
        match getBlock g2 l with
        | none => none
        | some _ => some (setBlock g2 l (fun b => { b with dominator := some target }))

/-- Helper for `compute_dom`: `dominator_link.entry(dom).or_insert(vec![]).push(id)`
on an association list from dominator handle to the ids pushed for it. -/
def addEntry : List (BlockId × List BlockId) → BlockId → BlockId →
    List (BlockId × List BlockId)
  | [], d, x => [(d, [x])]
  | (k, v) :: rest, d, x =>
    if k = d then (k, v ++ [x]) :: rest else (k, v) :: addEntry rest d x

/-- First loop of `compute_dom`: scan the arena in order and group each
block's id under its dominator handle. -/
def dominatorLink (blocks : List BasicBlock) : List (BlockId × List BlockId) :=
  blocks.foldl
    (fun acc b =>
      match b.dominator with
      | none => acc
      | some d => addEntry acc d b.id)
    []

/-- First-match lookup in the grouping association list built by
`dominatorLink` (yields `[]` for an absent key); proof-layer accessor for
stating what `compute_dom` appends. -/
def linkLookup : List (BlockId × List BlockId) → BlockId → List BlockId
  | [], _ => []
  | (k, v) :: rest, d => if k = d then v else linkLookup rest d

/-- `compute_dom` from block.rs: group block ids by dominator handle, then
push each group onto the `dominated` list of the dominator's block
(`igen[master]` panics when a dominator handle does not resolve; the panic
is modelled by `none`). -/
def compute_dom (g : IRGenerator) : Option IRGenerator :=
  (dominatorLink g.blocks).foldlM
    (fun gacc p =>
      match getBlock gacc p.1 with
      | none => none
      | some _ => some (setBlock gacc p.1
          (fun b => { b with dominated := b.dominated ++ p.2 })))
    g

/-- One `test_and_push` call inside `bfs`: given the accumulated
`(result, queue)` state, push the optional successor when it is neither
`stop` nor already in `result`. -/
def testAndPush (stop : BlockId) (st : List BlockId × List BlockId)
    (blockOpt : Option BlockId) : List BlockId × List BlockId :=
  match blockOpt with
  | none => st
  | some b =>
    if b ≠ stop ∧ b ∉ st.1 then (st.1 ++ [b], st.2 ++ [b]) else st

/-- The `while !queue.is_empty()` loop of `bfs`, with explicit fuel; the
loop dequeues once per iteration, so a fuel larger than the total number
of dequeues makes the fuel case unreachable (`bfs_terminates` below).
`none` models either the Rust panic on a dequeued handle that does not
resolve, or fuel exhaustion. -/
def bfsAux (g : IRGenerator) : Nat → List BlockId → List BlockId → BlockId →
    Option (List BlockId)
  | 0, _, _, _ => none
  | _ + 1, [], result, _ => some result
  | fuel + 1, b :: rest, result, stop =>
    match getBlock g b with
    | none => none
    | some blk =>
      let st := testAndPush stop (testAndPush stop (result, rest) blk.left) blk.right
      bfsAux g fuel st.2 st.1 stop

/-- `bfs(start, stop)` from block.rs: breadth-first traversal along
`left`/`right` successor edges from `start`, never entering `stop`,
`result` initialised to `[start]` and `start` enqueued.  The fuel
`2 * blocks.length + 2` exceeds every possible number of loop iterations
(each iteration dequeues one handle, every enqueued handle is a distinct
member of `result`, and `result` can only hold `start` plus successors
stored in the arena). -/
def bfs (g : IRGenerator) (start stop : BlockId) : Option (List BlockId) :=
  bfsAux g (2 * g.blocks.length + 2) [start] [start] stop

/-! ### Concrete construction states used by witnesses and counterexamples -/

/-- A fresh construction context before any block exists. -/
def emptyCtx : IRGenerator :=
  { blocks := []
    first_block := BlockId.dummy
    current_block := BlockId.dummy
    sealed_blocks := []
    next_node := 0 }

/-- Context after `create_first_block`: one entry block. -/
def ctx1 : IRGenerator := create_first_block emptyCtx

/-- Context after a further `new_sealed_block`: entry block plus one sealed
successor. -/
def ctx2 : IRGenerator :=
  ((new_sealed_block ctx1 BlockType.Normal).map Prod.fst).getD emptyCtx

/-- Context after a further `new_unsealed_block` on the left edge:
a three-block chain `idx 0 → idx 1 → idx 2`. -/
def ctx3 : IRGenerator :=
  ((new_unsealed_block ctx2 BlockType.Normal true).map Prod.fst).getD emptyCtx

/-- The entry block as it sits in `ctx1`, spelled out; used by the
concrete witnesses below. -/
def entryBlock1 : BasicBlock :=
  { id := BlockId.idx 0
    kind := BlockType.Normal
    dominator := none
    dominated := []
    predecessor := [BlockId.dummy]
    left := none
    right := none
    instructions := [NodeId.idx 0]
    value_map := [] }

/-- Block `idx 1` of `ctx3`, spelled out; used by the C8 witness. -/
def ctx3blk1 : BasicBlock :=
  { id := BlockId.idx 1
    kind := BlockType.Normal
    dominator := some (BlockId.idx 0)
    dominated := []
    predecessor := [BlockId.idx 0]
    left := some (BlockId.idx 2)
    right := none
    instructions := [NodeId.idx 1]
    value_map := [] }

/-! ### Arena helper lemmas -/

theorem getBlock_idx (g : IRGenerator) (n : Nat) :
    getBlock g (BlockId.idx n) = g.blocks.get? n := rfl

theorem setBlock_blocks_length (g : IRGenerator) (h : BlockId)
    (f : BasicBlock → BasicBlock) :
    (setBlock g h f).blocks.length = g.blocks.length := by
  cases h with
  | dummy => rfl
  | idx n =>
    simp only [setBlock]
    cases g.blocks.get? n with
    | none => rfl
    | some blk => simp

theorem setBlock_first_block (g : IRGenerator) (h : BlockId)
    (f : BasicBlock → BasicBlock) :
    (setBlock g h f).first_block = g.first_block := by
  cases h with
  | dummy => rfl
  | idx n =>
    simp only [setBlock]
    cases g.blocks.get? n with
    | none => rfl
    | some blk => rfl

theorem setBlock_current_block (g : IRGenerator) (h : BlockId)
    (f : BasicBlock → BasicBlock) :
    (setBlock g h f).current_block = g.current_block := by
  cases h with
  | dummy => rfl
  | idx n =>
    simp only [setBlock]
    cases g.blocks.get? n with
    | none => rfl
    | some blk => rfl

theorem setBlock_sealed_blocks (g : IRGenerator) (h : BlockId)
    (f : BasicBlock → BasicBlock) :
    (setBlock g h f).sealed_blocks = g.sealed_blocks := by
  cases h with
  | dummy => rfl
  | idx n =>
    simp only [setBlock]
    cases g.blocks.get? n with
    | none => rfl
    | some blk => rfl

theorem getBlock_setBlock_self (g : IRGenerator) (h : BlockId)
    (f : BasicBlock → BasicBlock) (b : BasicBlock)
    (hb : getBlock g h = some b) :
    getBlock (setBlock g h f) h = some (f b) := by
  cases h with
  | dummy => simp [getBlock] at hb
  | idx n =>
    simp only [getBlock, setBlock] at hb ⊢
    rw [hb]
    simp only [List.get?_eq_getElem?] at hb ⊢
    have hlt : n < g.blocks.length := by
      by_contra hge
      rw [List.getElem?_eq_none (Nat.le_of_not_lt hge)] at hb
      exact Option.noConfusion hb
    simp [List.getElem?_set_self hlt]

theorem getBlock_setBlock_ne (g : IRGenerator) (h h' : BlockId)
    (f : BasicBlock → BasicBlock) (hne : h ≠ h') :
    getBlock (setBlock g h f) h' = getBlock g h' := by
  cases h with
  | dummy => rfl
  | idx n =>
    cases h' with
    | dummy => simp only [setBlock]; cases g.blocks.get? n <;> rfl
    | idx m =>
      have hnm : n ≠ m := fun e => hne (by rw [e])
      simp only [getBlock, setBlock]
      cases hg : g.blocks.get? n with
      | none => rfl
      | some blk => simp [List.getElem?_set_ne hnm]

theorem getBlock_setBlock_miss (g : IRGenerator) (h : BlockId)
    (f : BasicBlock → BasicBlock) (hmiss : getBlock g h = none) :
    setBlock g h f = g := by
  cases h with
  | dummy => rfl
  | idx n =>
    simp only [getBlock, List.get?_eq_getElem?] at hmiss
    simp [setBlock, hmiss]

theorem getBlock_insert_new (g : IRGenerator) (b : BasicBlock) :
    getBlock (insert_block g b).1 (insert_block g b).2 =
      some { b with id := BlockId.idx g.blocks.length } := by
  simp [insert_block, getBlock, List.getElem?_concat_length]

theorem getBlock_insert_old (g : IRGenerator) (b blk : BasicBlock) (h : BlockId)
    (hb : getBlock g h = some blk) :
    getBlock (insert_block g b).1 h = some blk := by
  cases h with
  | dummy => simp [getBlock] at hb
  | idx n =>
    simp only [getBlock, insert_block, List.get?_eq_getElem?] at hb ⊢
    have hlt : n < g.blocks.length := by
      by_contra hge
      rw [List.getElem?_eq_none (Nat.le_of_not_lt hge)] at hb
      exact Option.noConfusion hb
    rw [List.getElem?_append_left hlt]
    exact hb

theorem getBlock_lt_length (g : IRGenerator) (n : Nat) (blk : BasicBlock)
    (hb : getBlock g (BlockId.idx n) = some blk) : n < g.blocks.length := by
  simp only [getBlock, List.get?_eq_getElem?] at hb
  by_contra hge
  rw [List.getElem?_eq_none (Nat.le_of_not_lt hge)] at hb
  exact Option.noConfusion hb

/-! ### C2: get_first_instruction -/

/-- C2: `get_first_instruction` on a block with a non-empty `instructions`
sequence returns the first instruction id of that block; on a block with an
empty `instructions` sequence it fails with a precondition violation
(the Rust `self.instructions[0]` panic, modelled by `none`) rather than
returning a default or "not found" value. -/
theorem get_first_instruction_spec (b : BasicBlock) :
    (∀ i rest, b.instructions = i :: rest →
      b.get_first_instruction = some i) ∧
    (b.instructions = [] → b.get_first_instruction = none) := by
  constructor
  · intro i rest h
    simp [BasicBlock.get_first_instruction, h]
  · intro h
    simp [BasicBlock.get_first_instruction, h]

/-- Witness for C2 on a concrete block: the first instruction of a block
holding `[NodeId.idx 5, NodeId.idx 7]` is `NodeId.idx 5`, and a bare
`BasicBlock.new` block (empty instructions) fails. -/
theorem get_first_instruction_spec_witness :
    ({ BasicBlock.new BlockId.dummy BlockType.Normal with
        instructions := [NodeId.idx 5, NodeId.idx 7] } :
        BasicBlock).get_first_instruction = some (NodeId.idx 5) ∧
    (BasicBlock.new BlockId.dummy BlockType.Normal).get_first_instruction
      = none :=
  ⟨(get_first_instruction_spec _).1 (NodeId.idx 5) [NodeId.idx 7] rfl,
   (get_first_instruction_spec _).2 rfl⟩

/-! ### C9: value_map read/write -/

/-- C9: on any block, `update_variable old new` followed by
`get_current_value old` returns the just-written value `new` (insert or
overwrite of any earlier mapping for `old`); `get_current_value var` for a
variable with no mapping in the block's `value_map` returns "not found"
(`none`).  `get_current_value` takes the block immutably (`&self` in the
source), so it has no side effects; in this pure embedding it is a
function of the block returning only the looked-up value. -/
theorem value_map_spec (b : BasicBlock) (old new var : NodeId) :
    ((b.update_variable old new).get_current_value old = some new) ∧
    ((∀ p ∈ b.value_map, p.1 ≠ var) → b.get_current_value var = none) := by
  constructor
  · simp [BasicBlock.update_variable, BasicBlock.get_current_value]
  · intro h
    have hnone : List.find? (fun p => decide (p.1 = var)) b.value_map = none := by
      rw [List.find?_eq_none]
      intro p hp
      simpa using h p hp
    simp [BasicBlock.get_current_value, hnone]

/-- Witness for C9 on concrete data: writing `idx 3 ↦ idx 4` over an
existing mapping and reading it back yields `idx 4`; reading the unwritten
`idx 9` from a fresh block yields `none`. -/
theorem value_map_spec_witness :
    (({ BasicBlock.new BlockId.dummy BlockType.Normal with
        value_map := [(NodeId.idx 3, NodeId.idx 1)] } :
        BasicBlock).update_variable (NodeId.idx 3) (NodeId.idx 4)
      ).get_current_value (NodeId.idx 3) = some (NodeId.idx 4) ∧
    (BasicBlock.new BlockId.dummy BlockType.Normal).get_current_value
      (NodeId.idx 9) = none :=
  ⟨(value_map_spec _ (NodeId.idx 3) (NodeId.idx 4) (NodeId.idx 9)).1,
   (value_map_spec (BasicBlock.new BlockId.dummy BlockType.Normal)
      (NodeId.idx 3) (NodeId.idx 4) (NodeId.idx 9)).2 (by simp [BasicBlock.new])⟩

/-! ### Cursor / instruction-creation helper lemmas -/

theorem getBlock_setSealed (g : IRGenerator) (x h : BlockId) :
    getBlock (setSealed g x) h = getBlock g h := rfl

theorem getBlock_setCurrent (g : IRGenerator) (c h : BlockId) :
    getBlock (setCurrent g c) h = getBlock g h := rfl

theorem getBlock_setCursors (g : IRGenerator) (c h : BlockId) :
    getBlock (setCursors g c) h = getBlock g h := rfl

theorem setSealed_current_block (g : IRGenerator) (x : BlockId) :
    (setSealed g x).current_block = g.current_block := rfl

theorem setSealed_first_block (g : IRGenerator) (x : BlockId) :
    (setSealed g x).first_block = g.first_block := rfl

theorem setSealed_sealed_blocks (g : IRGenerator) (x : BlockId) :
    (setSealed g x).sealed_blocks = setInsert g.sealed_blocks x := rfl

theorem setCurrent_current_block (g : IRGenerator) (c : BlockId) :
    (setCurrent g c).current_block = c := rfl

theorem setCurrent_first_block (g : IRGenerator) (c : BlockId) :
    (setCurrent g c).first_block = g.first_block := rfl

theorem setCurrent_sealed_blocks (g : IRGenerator) (c : BlockId) :
    (setCurrent g c).sealed_blocks = g.sealed_blocks := rfl

theorem insert_block_snd (g : IRGenerator) (b : BasicBlock) :
    (insert_block g b).2 = BlockId.idx g.blocks.length := rfl

theorem insert_block_current (g : IRGenerator) (b : BasicBlock) :
    (insert_block g b).1.current_block = g.current_block := rfl

theorem insert_block_first (g : IRGenerator) (b : BasicBlock) :
    (insert_block g b).1.first_block = g.first_block := rfl

theorem insert_block_sealed (g : IRGenerator) (b : BasicBlock) :
    (insert_block g b).1.sealed_blocks = g.sealed_blocks := rfl

theorem ni_fst_first (g : IRGenerator) (a b : NodeId) (c : Operation)
    (d : ObjectType) :
    ((new_instruction g a b c d).1).first_block = g.first_block := by
  show (setBlock { g with next_node := g.next_node + 1 } g.current_block _).first_block
    = g.first_block
  rw [setBlock_first_block]

theorem ni_fst_current (g : IRGenerator) (a b : NodeId) (c : Operation)
    (d : ObjectType) :
    ((new_instruction g a b c d).1).current_block = g.current_block := by
  show (setBlock { g with next_node := g.next_node + 1 } g.current_block _).current_block
    = g.current_block
  rw [setBlock_current_block]

theorem ni_fst_sealed (g : IRGenerator) (a b : NodeId) (c : Operation)
    (d : ObjectType) :
    ((new_instruction g a b c d).1).sealed_blocks = g.sealed_blocks := by
  show (setBlock { g with next_node := g.next_node + 1 } g.current_block _).sealed_blocks
    = g.sealed_blocks
  rw [setBlock_sealed_blocks]

theorem ni_getBlock (g : IRGenerator) (a b : NodeId) (c : Operation)
    (d : ObjectType) (h : BlockId) (blk : BasicBlock)
    (hh : h = g.current_block) (hb : getBlock g h = some blk) :
    getBlock ((new_instruction g a b c d).1) h =
      some { blk with instructions := blk.instructions ++ [NodeId.idx g.next_node] } := by
  subst hh
  exact getBlock_setBlock_self { g with next_node := g.next_node + 1 }
    g.current_block _ blk hb

theorem ni_getBlock_ne (g : IRGenerator) (a b : NodeId) (c : Operation)
    (d : ObjectType) (h : BlockId) (hne : g.current_block ≠ h) :
    getBlock ((new_instruction g a b c d).1) h = getBlock g h :=
  getBlock_setBlock_ne { g with next_node := g.next_node + 1 }
    g.current_block h _ hne

/-! ### C3: create_first_block -/

/-- C3: `create_first_block` creates the entry block — its `dominator` is
`None` and its predecessor list holds only the `BlockId::dummy()` sentinel,
which never resolves in the arena, i.e. the entry block has no predecessor
block — inserts it in the arena (its handle resolves afterwards, and the
arena stamped that handle into the block's `id`), and records its handle as
both the `first_block` and the `current_block` of the construction
context. -/
theorem create_first_block_spec (g : IRGenerator) :
    (create_first_block g).first_block = BlockId.idx g.blocks.length ∧
    (create_first_block g).current_block = BlockId.idx g.blocks.length ∧
    ∃ blk,
      getBlock (create_first_block g) (BlockId.idx g.blocks.length) = some blk ∧
      blk.dominator = none ∧
      blk.predecessor = [BlockId.dummy] ∧
      (∀ q ∈ blk.predecessor, getBlock (create_first_block g) q = none) ∧
      blk.id = BlockId.idx g.blocks.length := by
  have hins := getBlock_insert_new g (BasicBlock.new BlockId.dummy BlockType.Normal)
  have hbase : getBlock
      (setCursors (insert_block g (BasicBlock.new BlockId.dummy BlockType.Normal)).1
        (insert_block g (BasicBlock.new BlockId.dummy BlockType.Normal)).2)
      (BlockId.idx g.blocks.length) =
      some { BasicBlock.new BlockId.dummy BlockType.Normal with
              id := BlockId.idx g.blocks.length } := by
    rw [getBlock_setCursors]
    exact hins
  refine ⟨?_, ?_, ?_⟩
  · simp only [create_first_block]
    rw [ni_fst_first]
    rfl
  · simp only [create_first_block]
    rw [ni_fst_current]
    rfl
  · refine ⟨{ BasicBlock.new BlockId.dummy BlockType.Normal with
        id := BlockId.idx g.blocks.length,
        instructions := [NodeId.idx g.next_node] }, ?_, rfl, rfl, ?_, rfl⟩
    · show getBlock ((new_instruction
          (setCursors (insert_block g (BasicBlock.new BlockId.dummy BlockType.Normal)).1
            (insert_block g (BasicBlock.new BlockId.dummy BlockType.Normal)).2)
          NodeId.dummy NodeId.dummy Operation.Nop ObjectType.NotAnObject).1)
          (BlockId.idx g.blocks.length) = _
      exact ni_getBlock _ _ _ _ _ _ _ (by rfl) hbase
    · intro q hq
      simp only [BasicBlock.new, List.mem_singleton] at hq
      subst hq
      rfl

theorem setBlock_next_node (g : IRGenerator) (h : BlockId)
    (f : BasicBlock → BasicBlock) :
    (setBlock g h f).next_node = g.next_node := by
  cases h with
  | dummy => rfl
  | idx n =>
    simp only [setBlock]
    cases g.blocks.get? n with
    | none => rfl
    | some blk => rfl

theorem setSealed_next_node (g : IRGenerator) (x : BlockId) :
    (setSealed g x).next_node = g.next_node := rfl

theorem setCurrent_next_node (g : IRGenerator) (c : BlockId) :
    (setCurrent g c).next_node = g.next_node := rfl

theorem insert_block_next_node (g : IRGenerator) (b : BasicBlock) :
    (insert_block g b).1.next_node = g.next_node := rfl

/-! ### Characterization of the sealed constructor -/

/-- When the current block resolves (the normal situation: the spec calls
`current_block` "always valid"), `new_sealed_block` succeeds and the
resulting state is fully determined: the new block sits at index
`g.blocks.length` with the dominator/predecessor wiring to the old current
block and the placeholder instruction, the old current block gains the new
block as its `left` successor, and the new handle is sealed and becomes
current. -/
theorem new_sealed_block_char (g : IRGenerator) (k : BlockType) (m : Nat)
    (cb : BasicBlock) (hm : g.current_block = BlockId.idx m)
    (hcb : getBlock g (BlockId.idx m) = some cb) :
    ∃ g', new_sealed_block g k = some (g', BlockId.idx g.blocks.length) ∧
      g'.current_block = BlockId.idx g.blocks.length ∧
      g'.first_block = g.first_block ∧
      g'.sealed_blocks = setInsert g.sealed_blocks (BlockId.idx g.blocks.length) ∧
      getBlock g' (BlockId.idx g.blocks.length) = some
        { id := BlockId.idx g.blocks.length
          kind := k
          dominator := some (BlockId.idx m)
          dominated := []
          predecessor := [BlockId.idx m]
          left := none
          right := none
          instructions := [NodeId.idx g.next_node]
          value_map := [] } ∧
      getBlock g' (BlockId.idx m) =
        some { cb with left := some (BlockId.idx g.blocks.length) } := by
  have hmlt : m < g.blocks.length := getBlock_lt_length g m cb hcb
  have hlenne : BlockId.idx g.blocks.length ≠ BlockId.idx m := by
    intro h
    have h2 : g.blocks.length = m := by injection h
    omega
  have hscr : getBlock
      (setSealed
        (setBlock (insert_block g (BasicBlock.new (BlockId.idx m) k)).1
          (insert_block g (BasicBlock.new (BlockId.idx m) k)).2
          (fun b => { b with dominator := some (BlockId.idx m) }))
        (insert_block g (BasicBlock.new (BlockId.idx m) k)).2)
      (BlockId.idx m) = some cb := by
    rw [getBlock_setSealed, insert_block_snd,
      getBlock_setBlock_ne _ _ _ _ hlenne]
    exact getBlock_insert_old g _ cb (BlockId.idx m) hcb
  simp only [new_sealed_block]
  rw [hm]
  rw [hscr]
  refine ⟨_, rfl, ?_, ?_, ?_, ?_, ?_⟩
  · rw [ni_fst_current, setCurrent_current_block, insert_block_snd]
  · rw [ni_fst_first, setCurrent_first_block, setBlock_first_block,
      setSealed_first_block, setBlock_first_block, insert_block_first]
  · rw [ni_fst_sealed, setCurrent_sealed_blocks, setBlock_sealed_blocks,
      setSealed_sealed_blocks, setBlock_sealed_blocks, insert_block_sealed,
      insert_block_snd]
  · have hins2 : getBlock
        (insert_block g (BasicBlock.new (BlockId.idx m) k)).1
        (BlockId.idx g.blocks.length) = some
        { BasicBlock.new (BlockId.idx m) k with id := BlockId.idx g.blocks.length } :=
      getBlock_insert_new g (BasicBlock.new (BlockId.idx m) k)
    have hb2 : getBlock
        (setCurrent (setBlock (setSealed (setBlock
            (insert_block g (BasicBlock.new (BlockId.idx m) k)).1
            (insert_block g (BasicBlock.new (BlockId.idx m) k)).2
            (fun b => { b with dominator := some (BlockId.idx m) }))
            (insert_block g (BasicBlock.new (BlockId.idx m) k)).2)
          (BlockId.idx m)
          (fun b => { b with left := some (insert_block g (BasicBlock.new (BlockId.idx m) k)).2 }))
          (insert_block g (BasicBlock.new (BlockId.idx m) k)).2)
        (BlockId.idx g.blocks.length) = some
        { id := BlockId.idx g.blocks.length
          kind := k
          dominator := some (BlockId.idx m)
          dominated := []
          predecessor := [BlockId.idx m]
          left := none
          right := none
          instructions := []
          value_map := [] } := by
      rw [getBlock_setCurrent,
        getBlock_setBlock_ne _ _ _ _ (Ne.symm hlenne),
        getBlock_setSealed, insert_block_snd,
        getBlock_setBlock_self _ _ _ _ hins2]
      rfl
    rw [ni_getBlock _ _ _ _ _ _ _ (by rfl) hb2]
    simp only [setCurrent_next_node, setBlock_next_node, setSealed_next_node,
      insert_block_next_node, List.nil_append]
  · rw [ni_getBlock_ne _ _ _ _ _ _ (fun hco => hlenne hco)]
    rw [getBlock_setCurrent]
    rw [getBlock_setBlock_self _ _ _ _ hscr]
    rw [insert_block_snd]

/-! ### Characterization of the unsealed constructor -/

/-- Unsealed analogue of `new_sealed_block_char`: `new_unsealed_block`
succeeds when the current block resolves, wires the new block at the
chosen edge of the old current block, sets its dominator to the old
current block, moves the cursor, appends the placeholder — and leaves the
sealed set untouched. -/
theorem new_unsealed_block_char (g : IRGenerator) (k : BlockType) (fl : Bool)
    (m : Nat) (cb : BasicBlock) (hm : g.current_block = BlockId.idx m)
    (hcb : getBlock g (BlockId.idx m) = some cb) :
    ∃ g', new_unsealed_block g k fl = some (g', BlockId.idx g.blocks.length) ∧
      g'.current_block = BlockId.idx g.blocks.length ∧
      g'.first_block = g.first_block ∧
      g'.sealed_blocks = g.sealed_blocks ∧
      getBlock g' (BlockId.idx g.blocks.length) = some
        { id := BlockId.idx g.blocks.length
          kind := k
          dominator := some (BlockId.idx m)
          dominated := []
          predecessor := [BlockId.idx m]
          left := none
          right := none
          instructions := [NodeId.idx g.next_node]
          value_map := [] } ∧
      getBlock g' (BlockId.idx m) = some
        (if fl then { cb with left := some (BlockId.idx g.blocks.length) }
         else { cb with right := some (BlockId.idx g.blocks.length) }) := by
  have hmlt : m < g.blocks.length := getBlock_lt_length g m cb hcb
  have hlenne : BlockId.idx g.blocks.length ≠ BlockId.idx m := by
    intro h
    have h2 : g.blocks.length = m := by injection h
    omega
  have hscr : getBlock
      (setBlock (insert_block g (BasicBlock.new (BlockId.idx m) k)).1
        (insert_block g (BasicBlock.new (BlockId.idx m) k)).2
        (fun b => { b with dominator := some (BlockId.idx m) }))
      (BlockId.idx m) = some cb := by
    rw [insert_block_snd, getBlock_setBlock_ne _ _ _ _ hlenne]
    exact getBlock_insert_old g _ cb (BlockId.idx m) hcb
  simp only [new_unsealed_block, create_block]
  rw [hm]
  rw [hscr]
  refine ⟨_, rfl, ?_, ?_, ?_, ?_, ?_⟩
  · rw [ni_fst_current, setCurrent_current_block, insert_block_snd]
  · rw [ni_fst_first, setCurrent_first_block, setBlock_first_block,
      setBlock_first_block, insert_block_first]
  · rw [ni_fst_sealed, setCurrent_sealed_blocks, setBlock_sealed_blocks,
      setBlock_sealed_blocks, insert_block_sealed]
  · have hins2 : getBlock
        (insert_block g (BasicBlock.new (BlockId.idx m) k)).1
        (BlockId.idx g.blocks.length) = some
        { BasicBlock.new (BlockId.idx m) k with id := BlockId.idx g.blocks.length } :=
      getBlock_insert_new g (BasicBlock.new (BlockId.idx m) k)
    have hb2 : getBlock
        (setCurrent (setBlock (setBlock
            (insert_block g (BasicBlock.new (BlockId.idx m) k)).1
            (insert_block g (BasicBlock.new (BlockId.idx m) k)).2
            (fun b => { b with dominator := some (BlockId.idx m) }))
          (BlockId.idx m)
          (fun b => if fl then { b with left := some (insert_block g (BasicBlock.new (BlockId.idx m) k)).2 } else { b with right := some (insert_block g (BasicBlock.new (BlockId.idx m) k)).2 }))
          (insert_block g (BasicBlock.new (BlockId.idx m) k)).2)
        (BlockId.idx g.blocks.length) = some
        { id := BlockId.idx g.blocks.length
          kind := k
          dominator := some (BlockId.idx m)
          dominated := []
          predecessor := [BlockId.idx m]
          left := none
          right := none
          instructions := []
          value_map := [] } := by
      rw [getBlock_setCurrent,
        getBlock_setBlock_ne _ _ _ _ (Ne.symm hlenne),
        insert_block_snd,
        getBlock_setBlock_self _ _ _ _ hins2]
      rfl
    rw [ni_getBlock _ _ _ _ _ _ _ (by rfl) hb2]
    simp only [setCurrent_next_node, setBlock_next_node,
      insert_block_next_node, List.nil_append]
  · rw [ni_getBlock_ne _ _ _ _ _ _ (fun hco => hlenne hco)]
    rw [getBlock_setCurrent]
    rw [getBlock_setBlock_self _ _ _ _ hscr]
    simp only [insert_block_snd]

/-! ### C5: dominator recorded at creation time -/

/-- C5: for a block created by `new_sealed_block` or `new_unsealed_block`
(in a state whose current block resolves — `current_block` is "always
valid"), the new block's `dominator` field equals the handle of the block
that was current at the moment of creation, and the new block's handle
replaces `current_block` going forward. -/
theorem dominator_set_at_creation (g : IRGenerator) (k : BlockType) (fl : Bool)
    (m : Nat) (cb : BasicBlock) (hm : g.current_block = BlockId.idx m)
    (hcb : getBlock g (BlockId.idx m) = some cb) :
    (∃ g' nid, new_sealed_block g k = some (g', nid) ∧
      g'.current_block = nid ∧
      ∃ blk, getBlock g' nid = some blk ∧
        blk.dominator = some g.current_block) ∧
    (∃ g' nid, new_unsealed_block g k fl = some (g', nid) ∧
      g'.current_block = nid ∧
      ∃ blk, getBlock g' nid = some blk ∧
        blk.dominator = some g.current_block) := by
  constructor
  · obtain ⟨g', heq, hcur, hfirst, hseal, hget, hold⟩ :=
      new_sealed_block_char g k m cb hm hcb
    exact ⟨g', _, heq, hcur, _, hget, by rw [hm]⟩
  · obtain ⟨g', heq, hcur, hfirst, hseal, hget, hold⟩ :=
      new_unsealed_block_char g k fl m cb hm hcb
    exact ⟨g', _, heq, hcur, _, hget, by rw [hm]⟩

/-- Witness for C5 on the concrete one-block context `ctx1`. -/
theorem dominator_set_at_creation_witness :
    ctx1.current_block = BlockId.idx 0 ∧
    getBlock ctx1 (BlockId.idx 0) = some entryBlock1 ∧
    ((∃ g' nid, new_sealed_block ctx1 BlockType.Normal = some (g', nid) ∧
      g'.current_block = nid ∧
      ∃ blk, getBlock g' nid = some blk ∧
        blk.dominator = some ctx1.current_block) ∧
    (∃ g' nid, new_unsealed_block ctx1 BlockType.Normal true = some (g', nid) ∧
      g'.current_block = nid ∧
      ∃ blk, getBlock g' nid = some blk ∧
        blk.dominator = some ctx1.current_block)) :=
  ⟨by decide, by decide,
   dominator_set_at_creation ctx1 BlockType.Normal true 0 entryBlock1
     (by decide) (by decide)⟩

/-! ### C6: sealed-set discipline -/

/-- C6: every completed call to `new_sealed_block` adds the newly created
block's handle to the sealed set (and only that handle); no completed call
to `new_unsealed_block`, nor to bare `create_block`, ever changes the
sealed set — in particular neither adds the newly created handle. -/
theorem sealed_set_spec (g : IRGenerator) (k : BlockType) (fl : Bool) :
    (∀ g' nid, new_sealed_block g k = some (g', nid) →
      g'.sealed_blocks = setInsert g.sealed_blocks nid ∧
      nid ∈ g'.sealed_blocks) ∧
    (∀ g' nid, new_unsealed_block g k fl = some (g', nid) →
      g'.sealed_blocks = g.sealed_blocks) ∧
    (create_block g k).1.sealed_blocks = g.sealed_blocks := by
  refine ⟨?_, ?_, ?_⟩
  · intro g' nid h
    simp only [new_sealed_block] at h
    split at h
    · exact absurd h (by simp)
    · injection h with h1
      injection h1 with hg hn
      subst hg
      subst hn
      constructor
      · rw [ni_fst_sealed, setCurrent_sealed_blocks, setBlock_sealed_blocks,
          setSealed_sealed_blocks, setBlock_sealed_blocks, insert_block_sealed]
      · rw [ni_fst_sealed, setCurrent_sealed_blocks, setBlock_sealed_blocks,
          setSealed_sealed_blocks, setBlock_sealed_blocks, insert_block_sealed,
          setInsert]
        split
        · assumption
        · simp
  · intro g' nid h
    simp only [new_unsealed_block, create_block] at h
    split at h
    · exact absurd h (by simp)
    · injection h with h1
      injection h1 with hg hn
      subst hg
      rw [ni_fst_sealed, setCurrent_sealed_blocks, setBlock_sealed_blocks,
        setBlock_sealed_blocks, insert_block_sealed]
  · rw [create_block, insert_block_sealed]

/-- Witness for C6 on the concrete one-block context `ctx1`. -/
theorem sealed_set_spec_witness :
    new_sealed_block ctx1 BlockType.Normal = some (ctx2, BlockId.idx 1) ∧
    ctx2.sealed_blocks = setInsert ctx1.sealed_blocks (BlockId.idx 1) ∧
    BlockId.idx 1 ∈ ctx2.sealed_blocks ∧
    (∀ g' nid, new_unsealed_block ctx1 BlockType.Normal false = some (g', nid) →
      g'.sealed_blocks = ctx1.sealed_blocks) :=
  ⟨by decide,
   ((sealed_set_spec ctx1 BlockType.Normal false).1 ctx2 (BlockId.idx 1)
      (by decide)).1,
   ((sealed_set_spec ctx1 BlockType.Normal false).1 ctx2 (BlockId.idx 1)
      (by decide)).2,
   (sealed_set_spec ctx1 BlockType.Normal false).2.1⟩

/-! ### C10: sealed construction occupies the left edge -/

/-- C10 (implicit): `new_sealed_block` wires the newly created block as the
`left` (fall-through) successor of the block that was current at the
moment of creation; that block's `right` successor — and every other field
apart from `left` — is left unchanged (the conclusion's record update
touches only `left`). -/
theorem sealed_block_takes_left_edge (g : IRGenerator) (k : BlockType)
    (m : Nat) (cb : BasicBlock) (hm : g.current_block = BlockId.idx m)
    (hcb : getBlock g (BlockId.idx m) = some cb) :
    ∃ g' nid, new_sealed_block g k = some (g', nid) ∧
      getBlock g' (BlockId.idx m) = some { cb with left := some nid } := by
  obtain ⟨g', heq, hcur, hfirst, hseal, hget, hold⟩ :=
    new_sealed_block_char g k m cb hm hcb
  exact ⟨g', _, heq, hold⟩

/-- Witness for C10 on the concrete one-block context `ctx1`: the entry
block's `left` becomes the new handle `idx 1` and its `right` stays
`none`. -/
theorem sealed_block_takes_left_edge_witness :
    ctx1.current_block = BlockId.idx 0 ∧
    getBlock ctx1 (BlockId.idx 0) = some entryBlock1 ∧
    ∃ g' nid, new_sealed_block ctx1 BlockType.Normal = some (g', nid) ∧
      getBlock g' (BlockId.idx 0) = some { entryBlock1 with left := some nid } :=
  ⟨by decide, by decide,
   sealed_block_takes_left_edge ctx1 BlockType.Normal 0 entryBlock1
     (by decide) (by decide)⟩

/-! ### C7: placeholder instruction invariant -/

/-- C7: immediately after `create_first_block`, `new_sealed_block` or
`new_unsealed_block` returns, the newly created block's `instructions`
sequence is non-empty (each of them appends the placeholder no-op); a
block produced by bare `create_block` has an empty `instructions`
sequence. -/
theorem placeholder_instruction_spec (g : IRGenerator) (k : BlockType)
    (fl : Bool) (m : Nat) (cb : BasicBlock)
    (hm : g.current_block = BlockId.idx m)
    (hcb : getBlock g (BlockId.idx m) = some cb) :
    (∃ blk, getBlock (create_first_block g) (BlockId.idx g.blocks.length) =
        some blk ∧ blk.instructions ≠ []) ∧
    (∃ g' nid blk, new_sealed_block g k = some (g', nid) ∧
      getBlock g' nid = some blk ∧ blk.instructions ≠ []) ∧
    (∃ g' nid blk, new_unsealed_block g k fl = some (g', nid) ∧
      getBlock g' nid = some blk ∧ blk.instructions ≠ []) ∧
    (∃ blk, getBlock (create_block g k).1 (create_block g k).2 = some blk ∧
      blk.instructions = []) := by
  refine ⟨?_, ?_, ?_, ?_⟩
  · have hbase : getBlock
        (setCursors (insert_block g (BasicBlock.new BlockId.dummy BlockType.Normal)).1
          (insert_block g (BasicBlock.new BlockId.dummy BlockType.Normal)).2)
        (BlockId.idx g.blocks.length) =
        some { BasicBlock.new BlockId.dummy BlockType.Normal with
                id := BlockId.idx g.blocks.length } := by
      rw [getBlock_setCursors]
      exact getBlock_insert_new g (BasicBlock.new BlockId.dummy BlockType.Normal)
    refine ⟨{ BasicBlock.new BlockId.dummy BlockType.Normal with
        id := BlockId.idx g.blocks.length,
        instructions := [NodeId.idx g.next_node] }, ?_, by simp⟩
    show getBlock ((new_instruction
        (setCursors (insert_block g (BasicBlock.new BlockId.dummy BlockType.Normal)).1
          (insert_block g (BasicBlock.new BlockId.dummy BlockType.Normal)).2)
        NodeId.dummy NodeId.dummy Operation.Nop ObjectType.NotAnObject).1)
        (BlockId.idx g.blocks.length) = _
    exact ni_getBlock _ _ _ _ _ _ _ (by rfl) hbase
  · obtain ⟨g', heq, hcur, hfirst, hseal, hget, hold⟩ :=
      new_sealed_block_char g k m cb hm hcb
    exact ⟨g', _, _, heq, hget, by simp⟩
  · obtain ⟨g', heq, hcur, hfirst, hseal, hget, hold⟩ :=
      new_unsealed_block_char g k fl m cb hm hcb
    exact ⟨g', _, _, heq, hget, by simp⟩
  · refine ⟨{ BasicBlock.new g.current_block k with
        id := BlockId.idx g.blocks.length }, ?_, rfl⟩
    show getBlock (insert_block g (BasicBlock.new g.current_block k)).1
        (insert_block g (BasicBlock.new g.current_block k)).2 = _
    exact getBlock_insert_new g (BasicBlock.new g.current_block k)

/-- Witness for C7 on the concrete one-block context `ctx1`. -/
theorem placeholder_instruction_spec_witness :
    ctx1.current_block = BlockId.idx 0 ∧
    getBlock ctx1 (BlockId.idx 0) = some entryBlock1 ∧
    ((∃ blk, getBlock (create_first_block ctx1) (BlockId.idx ctx1.blocks.length) =
        some blk ∧ blk.instructions ≠ []) ∧
    (∃ g' nid blk, new_sealed_block ctx1 BlockType.ForJoin = some (g', nid) ∧
      getBlock g' nid = some blk ∧ blk.instructions ≠ []) ∧
    (∃ g' nid blk, new_unsealed_block ctx1 BlockType.ForJoin false = some (g', nid) ∧
      getBlock g' nid = some blk ∧ blk.instructions ≠ []) ∧
    (∃ blk, getBlock (create_block ctx1 BlockType.ForJoin).1
        (create_block ctx1 BlockType.ForJoin).2 = some blk ∧
      blk.instructions = [])) :=
  ⟨by decide, by decide,
   placeholder_instruction_spec ctx1 BlockType.ForJoin false 0 entryBlock1
     (by decide) (by decide)⟩

/-! ### Pointwise setBlock lemmas (for Graph Linking) -/

theorem getBlock_setBlock_point (g : IRGenerator) (t h : BlockId)
    (f : BasicBlock → BasicBlock) (b : BasicBlock)
    (hb : getBlock g h = some b) :
    getBlock (setBlock g t f) h = some (if h = t then f b else b) := by
  by_cases he : h = t
  · subst he
    rw [if_pos rfl]
    exact getBlock_setBlock_self g h f b hb
  · rw [if_neg he, getBlock_setBlock_ne g t h f (fun e => he e.symm)]
    exact hb

theorem getBlock_setBlock_none_iff (g : IRGenerator) (t h : BlockId)
    (f : BasicBlock → BasicBlock) :
    getBlock (setBlock g t f) h = none ↔ getBlock g h = none := by
  by_cases he : h = t
  · subst he
    cases hg : getBlock g h with
    | none => rw [getBlock_setBlock_miss g h f hg, hg]
    | some b => simp [getBlock_setBlock_self g h f b hg, hg]
  · rw [getBlock_setBlock_ne g t h f (fun e => he e.symm)]

/-- Pointwise description of a successful `link_with_target` on a resolving
target whose present successors also resolve: every stored block is
transformed by (1) the edge overwrite when it is the target, then (2) a
dominator stamp for the `right` successor, then (3) a dominator stamp for
the `left` successor; nothing enters or leaves the arena. -/
theorem link_with_target_pointwise (g : IRGenerator) (target : BlockId)
    (l r : Option BlockId) (tb : BasicBlock)
    (htb : getBlock g target = some tb)
    (hl : ∀ x, l = some x → ∃ bx, getBlock g x = some bx)
    (hr : ∀ x, r = some x → ∃ bx, getBlock g x = some bx) :
    ∃ g', link_with_target g target l r = some g' ∧
      (∀ h, getBlock g' h = none ↔ getBlock g h = none) ∧
      (∀ h b, getBlock g h = some b →
        getBlock g' h = some (
          let b1 := if h = target then { b with right := r, left := l } else b
          let b2 := if r = some h then { b1 with dominator := some target } else b1
          if l = some h then { b2 with dominator := some target } else b2)) := by
  simp only [link_with_target]
  rw [htb]
  dsimp only []
  cases r with
  | none =>
    dsimp only []
    cases l with
    | none =>
      refine ⟨_, rfl, ?_, ?_⟩
      · intro h
        rw [getBlock_setBlock_none_iff]
      · intro h b hb
        rw [getBlock_setBlock_point g target h _ b hb]
        by_cases he : h = target <;> simp [he]
    | some lv =>
      dsimp only []
      obtain ⟨bl, hbl⟩ := hl lv rfl
      have h1 := getBlock_setBlock_point g target lv
        (fun b => { b with right := none, left := some lv }) bl hbl
      rw [h1]
      dsimp only []
      refine ⟨_, rfl, ?_, ?_⟩
      · intro h
        rw [getBlock_setBlock_none_iff, getBlock_setBlock_none_iff]
      · intro h b hb
        have s1 := getBlock_setBlock_point g target h
          (fun b => { b with right := none, left := some lv }) b hb
        have s2 := getBlock_setBlock_point
          (setBlock g target (fun b => { b with right := none, left := some lv }))
          lv h (fun b => { b with dominator := some target }) _ s1
        rw [s2]
        rcases eq_or_ne lv h with hev | hev
        · subst hev
          by_cases he : lv = target
          · subst he
            simp
          · have he2 : target ≠ lv := fun hh => he hh.symm
            simp [he, he2]
        · have hev2 : h ≠ lv := fun hh => hev hh.symm
          by_cases he : h = target
          · subst he
            simp [hev, hev2]
          · simp [he, hev, hev2]
  | some rv =>
    dsimp only []
    obtain ⟨br, hbr⟩ := hr rv rfl
    have h1 := getBlock_setBlock_point g target rv
      (fun b => { b with right := some rv, left := l }) br hbr
    rw [h1]
    dsimp only []
    cases l with
    | none =>
      refine ⟨_, rfl, ?_, ?_⟩
      · intro h
        rw [getBlock_setBlock_none_iff, getBlock_setBlock_none_iff]
      · intro h b hb
        have s1 := getBlock_setBlock_point g target h
          (fun b => { b with right := some rv, left := none }) b hb
        have s2 := getBlock_setBlock_point
          (setBlock g target (fun b => { b with right := some rv, left := none }))
          rv h (fun b => { b with dominator := some target }) _ s1
        rw [s2]
        rcases eq_or_ne rv h with hev | hev
        · subst hev
          by_cases he : rv = target
          · subst he
            simp
          · have he2 : target ≠ rv := fun hh => he hh.symm
            simp [he, he2]
        · have hev2 : h ≠ rv := fun hh => hev hh.symm
          by_cases he : h = target
          · subst he
            simp [hev, hev2]
          · simp [he, hev, hev2]
    | some lv =>
      dsimp only []
      obtain ⟨bl, hbl⟩ := hl lv rfl
      have s1l := getBlock_setBlock_point g target lv
        (fun b => { b with right := some rv, left := some lv }) bl hbl
      have s2l := getBlock_setBlock_point
        (setBlock g target (fun b => { b with right := some rv, left := some lv }))
        rv lv (fun b => { b with dominator := some target }) _ s1l
      rw [s2l]
      dsimp only []
      refine ⟨_, rfl, ?_, ?_⟩
      · intro h
        rw [getBlock_setBlock_none_iff, getBlock_setBlock_none_iff,
          getBlock_setBlock_none_iff]
      · intro h b hb
        have s1 := getBlock_setBlock_point g target h
          (fun b => { b with right := some rv, left := some lv }) b hb
        have s2 := getBlock_setBlock_point
          (setBlock g target (fun b => { b with right := some rv, left := some lv }))
          rv h (fun b => { b with dominator := some target }) _ s1
        have s3 := getBlock_setBlock_point
          (setBlock (setBlock g target
            (fun b => { b with right := some rv, left := some lv }))
            rv (fun b => { b with dominator := some target }))
          lv h (fun b => { b with dominator := some target }) _ s2
        rw [s3]
        rcases eq_or_ne rv h with her | her
        · subst her
          rcases eq_or_ne lv rv with hel | hel
          · subst hel
            by_cases he : lv = target
            · subst he
              simp
            · have he2 : target ≠ lv := fun hh => he hh.symm
              simp [he, he2]
          · have hel2 : rv ≠ lv := fun hh => hel hh.symm
            by_cases he : rv = target
            · subst he
              simp [hel, hel2]
            · have he2 : target ≠ rv := fun hh => he hh.symm
              simp [he, he2, hel, hel2]
        · have her2 : h ≠ rv := fun hh => her hh.symm
          rcases eq_or_ne lv h with hel | hel
          · subst hel
            by_cases he : lv = target
            · subst he
              simp [her, her2]
            · have he2 : target ≠ lv := fun hh => he hh.symm
              simp [he, he2, her, her2]
          · have hel2 : h ≠ lv := fun hh => hel hh.symm
            by_cases he : h = target
            · subst he
              simp [her, her2, hel, hel2]
            · simp [he, her, her2, hel, hel2]

/-! ### C8: link_with_target -/

/-- C8: if `target` resolves (and each present successor handle resolves —
otherwise the Rust `igen[handle]` indexing panics), `link_with_target`
overwrites the target's `left` and `right` successor fields with the given
optional handles and sets the `dominator` of each present successor to
`target`, while leaving every block's `predecessor` list, `instructions`
sequence and `value_map` unchanged; if `target` does not resolve, the
whole state is returned unchanged (a no-op, not a failure). -/
theorem link_with_target_spec (g : IRGenerator) (target : BlockId)
    (l r : Option BlockId) :
    (getBlock g target = none → link_with_target g target l r = some g) ∧
    (∀ tb, getBlock g target = some tb →
      (∀ x, l = some x → ∃ bx, getBlock g x = some bx) →
      (∀ x, r = some x → ∃ bx, getBlock g x = some bx) →
      ∃ g', link_with_target g target l r = some g' ∧
        (∃ tb', getBlock g' target = some tb' ∧ tb'.left = l ∧ tb'.right = r) ∧
        (∀ x, l = some x →
          ∃ bx, getBlock g' x = some bx ∧ bx.dominator = some target) ∧
        (∀ x, r = some x →
          ∃ bx, getBlock g' x = some bx ∧ bx.dominator = some target) ∧
        (∀ h b b', getBlock g h = some b → getBlock g' h = some b' →
          b'.predecessor = b.predecessor ∧ b'.instructions = b.instructions ∧
          b'.value_map = b.value_map)) := by
  constructor
  · intro hmiss
    simp only [link_with_target]
    rw [hmiss]
  · intro tb htb hl hr
    obtain ⟨g', heq, hdom, hpt⟩ := link_with_target_pointwise g target l r tb htb hl hr
    refine ⟨g', heq, ?_, ?_, ?_, ?_⟩
    · have ht := hpt target tb htb
      dsimp only [] at ht
      rw [if_pos rfl] at ht
      refine ⟨_, ht, ?_, ?_⟩
      · split_ifs <;> rfl
      · split_ifs <;> rfl
    · intro x hx
      obtain ⟨bx, hbx⟩ := hl x hx
      have hx' := hpt x bx hbx
      subst hx
      dsimp only [] at hx'
      rw [if_pos rfl] at hx'
      exact ⟨_, hx', rfl⟩
    · intro x hx
      obtain ⟨bx, hbx⟩ := hr x hx
      have hx' := hpt x bx hbx
      subst hx
      dsimp only [] at hx'
      rw [if_pos rfl] at hx'
      by_cases hlx : l = some x
      · rw [if_pos hlx] at hx'
        exact ⟨_, hx', rfl⟩
      · rw [if_neg hlx] at hx'
        exact ⟨_, hx', rfl⟩
    · intro h b b' hb hb'
      have hv := hpt h b hb
      rw [hv] at hb'
      injection hb' with hbv
      subst hbv
      refine ⟨?_, ?_, ?_⟩ <;>
        · dsimp only []
          split_ifs <;> rfl

/-- Witness for C8 on the concrete three-block chain `ctx3`
(`idx 0 → idx 1 → idx 2`): a dummy target is a no-op, and relinking
`idx 1` with `left = idx 2`, `right = none` succeeds with the stated
effects. -/
theorem link_with_target_spec_witness :
    getBlock ctx3 BlockId.dummy = none ∧
    link_with_target ctx3 BlockId.dummy (some (BlockId.idx 2)) none = some ctx3 ∧
    (∃ g', link_with_target ctx3 (BlockId.idx 1) (some (BlockId.idx 2)) none
        = some g' ∧
      (∃ tb', getBlock g' (BlockId.idx 1) = some tb' ∧
        tb'.left = some (BlockId.idx 2) ∧ tb'.right = none) ∧
      (∀ x, (some (BlockId.idx 2) : Option BlockId) = some x →
        ∃ bx, getBlock g' x = some bx ∧ bx.dominator = some (BlockId.idx 1)) ∧
      (∀ x, (none : Option BlockId) = some x →
        ∃ bx, getBlock g' x = some bx ∧ bx.dominator = some (BlockId.idx 1)) ∧
      (∀ h b b', getBlock ctx3 h = some b → getBlock g' h = some b' →
        b'.predecessor = b.predecessor ∧ b'.instructions = b.instructions ∧
        b'.value_map = b.value_map)) :=
  ⟨by decide,
   (link_with_target_spec ctx3 BlockId.dummy (some (BlockId.idx 2)) none).1
     (by decide),
   (link_with_target_spec ctx3 (BlockId.idx 1) (some (BlockId.idx 2)) none).2
     ctx3blk1 (by decide)
     (by
       intro x hx
       cases hx
       exact ⟨{ id := BlockId.idx 2, kind := BlockType.Normal,
                dominator := some (BlockId.idx 1), dominated := [],
                predecessor := [BlockId.idx 1], left := none, right := none,
                instructions := [NodeId.idx 2], value_map := [] }, by decide⟩)
     (by intro x hx; cases hx)⟩

/-! ### compute_dom lemmas -/

theorem linkLookup_addEntry (acc : List (BlockId × List BlockId))
    (d x : BlockId) (h : BlockId) :
    linkLookup (addEntry acc d x) h =
      if h = d then linkLookup acc h ++ [x] else linkLookup acc h := by
  induction acc with
  | nil =>
    by_cases hh : h = d
    · subst hh
      simp [addEntry, linkLookup]
    · have hh2 : d ≠ h := fun e => hh e.symm
      simp [addEntry, linkLookup, hh, hh2]
  | cons p rest ih =>
    obtain ⟨k, v⟩ := p
    simp only [addEntry]
    by_cases hk : k = d
    · subst hk
      by_cases hh : h = k
      · subst hh
        simp [linkLookup]
      · have hh2 : k ≠ h := fun e => hh e.symm
        simp [linkLookup, hh, hh2]
    · rw [if_neg hk]
      by_cases hh : k = h
      · subst hh
        simp [linkLookup, hk]
      · simp [linkLookup, hh, ih]

theorem linkLookup_foldl (bs : List BasicBlock)
    (acc : List (BlockId × List BlockId)) (h : BlockId) :
    linkLookup (bs.foldl (fun acc b =>
        match b.dominator with
        | none => acc
        | some d => addEntry acc d b.id) acc) h =
      linkLookup acc h ++
        (bs.filter (fun b => b.dominator = some h)).map (fun b => b.id) := by
  induction bs generalizing acc with
  | nil => simp
  | cons b bs ih =>
    simp only [List.foldl_cons]
    cases hd : b.dominator with
    | none =>
      rw [ih]
      simp [List.filter_cons, hd]
    | some d =>
      rw [ih, linkLookup_addEntry]
      by_cases hh : h = d
      · subst hh
        simp [List.filter_cons, hd, List.append_assoc]
      · have hh2 : ¬ (some d = some h) := fun e => hh (by injection e with e2; exact e2.symm)
        simp [List.filter_cons, hd, hh, hh2]

theorem linkLookup_dominatorLink (bs : List BasicBlock) (h : BlockId) :
    linkLookup (dominatorLink bs) h =
      (bs.filter (fun b => b.dominator = some h)).map (fun b => b.id) := by
  rw [dominatorLink, linkLookup_foldl]
  rfl

theorem addEntry_keys_mem (acc : List (BlockId × List BlockId))
    (d x h : BlockId) :
    h ∈ (addEntry acc d x).map Prod.fst ↔
      h ∈ acc.map Prod.fst ∨ h = d := by
  induction acc with
  | nil => simp [addEntry]
  | cons p rest ih =>
    obtain ⟨k, v⟩ := p
    simp only [addEntry]
    by_cases hk : k = d
    · subst hk
      by_cases hh : h = k <;> simp [hh]
    · rw [if_neg hk]
      simp only [List.map_cons, List.mem_cons, ih]
      tauto

theorem addEntry_keys_nodup (acc : List (BlockId × List BlockId))
    (d x : BlockId) (hnd : (acc.map Prod.fst).Nodup) :
    ((addEntry acc d x).map Prod.fst).Nodup := by
  induction acc with
  | nil => simp [addEntry]
  | cons p rest ih =>
    obtain ⟨k, v⟩ := p
    simp only [List.map_cons, List.nodup_cons] at hnd
    simp only [addEntry]
    by_cases hk : k = d
    · subst hk
      simp only [eq_self_iff_true, if_true, List.map_cons, List.nodup_cons]
      exact hnd
    · rw [if_neg hk]
      simp only [List.map_cons, List.nodup_cons]
      refine ⟨?_, ih hnd.2⟩
      rw [addEntry_keys_mem]
      rintro (hmem | hmem)
      · exact hnd.1 hmem
      · exact hk hmem

theorem linkLookup_eq_nil (L : List (BlockId × List BlockId)) (h : BlockId)
    (hnot : h ∉ L.map Prod.fst) : linkLookup L h = [] := by
  induction L with
  | nil => rfl
  | cons p rest ih =>
    obtain ⟨k, v⟩ := p
    simp only [List.map_cons, List.mem_cons] at hnot
    push_neg at hnot
    simp only [linkLookup]
    rw [if_neg (fun e => hnot.1 e.symm)]
    exact ih hnot.2

theorem dominatorLink_keys (bs : List BasicBlock)
    (acc : List (BlockId × List BlockId))
    (hnd : (acc.map Prod.fst).Nodup) :
    ((bs.foldl (fun acc b =>
        match b.dominator with
        | none => acc
        | some d => addEntry acc d b.id) acc).map Prod.fst).Nodup ∧
    (∀ h, h ∈ (bs.foldl (fun acc b =>
        match b.dominator with
        | none => acc
        | some d => addEntry acc d b.id) acc).map Prod.fst →
      h ∈ acc.map Prod.fst ∨ ∃ b ∈ bs, b.dominator = some h) := by
  induction bs generalizing acc with
  | nil => exact ⟨hnd, fun h hm => Or.inl hm⟩
  | cons b bs ih =>
    simp only [List.foldl_cons]
    cases hd : b.dominator with
    | none =>
      obtain ⟨h1, h2⟩ := ih acc hnd
      refine ⟨h1, fun h hm => ?_⟩
      rcases h2 h hm with hm2 | ⟨c, hc, hcd⟩
      · exact Or.inl hm2
      · exact Or.inr ⟨c, List.mem_cons_of_mem _ hc, hcd⟩
    | some d =>
      obtain ⟨h1, h2⟩ := ih (addEntry acc d b.id) (addEntry_keys_nodup acc d b.id hnd)
      refine ⟨h1, fun h hm => ?_⟩
      rcases h2 h hm with hm2 | ⟨c, hc, hcd⟩
      · rw [addEntry_keys_mem] at hm2
        rcases hm2 with hm3 | hm3
        · exact Or.inl hm3
        · subst hm3
          exact Or.inr ⟨b, List.mem_cons_self _ _, hd⟩
      · exact Or.inr ⟨c, List.mem_cons_of_mem _ hc, hcd⟩

/-- Second loop of `compute_dom`, pointwise: with pairwise-distinct keys
that all resolve, the fold succeeds and every stored block's `dominated`
list is extended by exactly the group recorded for its handle. -/
theorem compute_dom_foldlM (L : List (BlockId × List BlockId))
    (g : IRGenerator) (hnd : (L.map Prod.fst).Nodup)
    (hres : ∀ p ∈ L, ∃ bp, getBlock g p.1 = some bp) :
    ∃ g', (L.foldlM (fun gacc p =>
        match getBlock gacc p.1 with
        | none => none
        | some _ => some (setBlock gacc p.1
            (fun b => { b with dominated := b.dominated ++ p.2 }))) g) = some g' ∧
      (∀ h, getBlock g' h = none ↔ getBlock g h = none) ∧
      (∀ h b, getBlock g h = some b →
        getBlock g' h = some { b with dominated := b.dominated ++ linkLookup L h }) := by
  induction L generalizing g with
  | nil =>
    refine ⟨g, rfl, fun h => Iff.rfl, fun h b hb => ?_⟩
    simp [linkLookup, hb]
  | cons p L ih =>
    obtain ⟨k, v⟩ := p
    obtain ⟨bk, hbk⟩ := hres (k, v) (List.mem_cons_self _ _)
    simp only [List.foldlM_cons]
    rw [hbk]
    dsimp only []
    simp only [List.map_cons, List.nodup_cons] at hnd
    have hres2 : ∀ p ∈ L, ∃ bp, getBlock
        (setBlock g k (fun b => { b with dominated := b.dominated ++ v })) p.1
        = some bp := by
      intro p hp
      obtain ⟨bp, hbp⟩ := hres p (List.mem_cons_of_mem _ hp)
      exact ⟨_, getBlock_setBlock_point g k p.1 _ bp hbp⟩
    obtain ⟨g', heq, hdom, hpt⟩ := ih
      (setBlock g k (fun b => { b with dominated := b.dominated ++ v }))
      hnd.2 hres2
    refine ⟨g', ?_, ?_, ?_⟩
    · simpa using heq
    · intro h
      rw [hdom h, getBlock_setBlock_none_iff]
    · intro h b hb
      have h1 := getBlock_setBlock_point g k h
        (fun b => { b with dominated := b.dominated ++ v }) b hb
      have h2 := hpt h _ h1
      rw [h2]
      by_cases hh : h = k
      · subst hh
        rw [if_pos rfl]
        have hnil : linkLookup L h = [] := linkLookup_eq_nil L h hnd.1
        simp [linkLookup, hnil]
      · rw [if_neg hh]
        have hh2 : ¬ k = h := fun e => hh e.symm
        simp [linkLookup, hh2]

/-- `compute_dom`, characterized: when every recorded dominator handle
resolves, the pass succeeds and appends to each block's `dominated` list
exactly the ids of the blocks whose `dominator` is that block's handle, in
arena order. -/
theorem compute_dom_char (g : IRGenerator)
    (hdomres : ∀ b ∈ g.blocks, ∀ d, b.dominator = some d →
      ∃ bd, getBlock g d = some bd) :
    ∃ g', compute_dom g = some g' ∧
      (∀ h, getBlock g' h = none ↔ getBlock g h = none) ∧
      (∀ h b, getBlock g h = some b →
        getBlock g' h = some { b with dominated := b.dominated ++
          (g.blocks.filter (fun c => c.dominator = some h)).map (fun c => c.id) }) := by
  have hkeys := dominatorLink_keys g.blocks [] (by simp)
  have hnd : ((dominatorLink g.blocks).map Prod.fst).Nodup := hkeys.1
  have hres : ∀ p ∈ dominatorLink g.blocks, ∃ bp, getBlock g p.1 = some bp := by
    intro p hp
    have hmem : p.1 ∈ (dominatorLink g.blocks).map Prod.fst :=
      List.mem_map.mpr ⟨p, hp, rfl⟩
    rcases hkeys.2 p.1 hmem with hfalse | ⟨b, hb, hbd⟩
    · simp at hfalse
    · exact hdomres b hb p.1 hbd
  obtain ⟨g', heq, hdom, hpt⟩ := compute_dom_foldlM (dominatorLink g.blocks) g hnd hres
  refine ⟨g', ?_, hdom, ?_⟩
  · rw [compute_dom]
    exact heq
  · intro h b hb
    rw [hpt h b hb, linkLookup_dominatorLink]

/-- In a well-formed arena (ids are the arena-assigned positions, spec §3
"id: set at insertion time by the arena; unique, never reused"), the
stored ids are pairwise distinct. -/
theorem blocks_ids_nodup (g : IRGenerator)
    (hwf : ∀ i b, g.blocks.get? i = some b → b.id = BlockId.idx i) :
    (g.blocks.map (fun b => b.id)).Nodup := by
  have hids : g.blocks.map (fun b => b.id)
      = (List.range g.blocks.length).map BlockId.idx := by
    apply List.ext_get?
    intro n
    rw [List.get?_map, List.get?_map]
    by_cases hn : n < g.blocks.length
    · rw [List.get?_eq_get hn, List.get?_range hn]
      simp only [Option.map_some']
      rw [hwf n (g.blocks.get ⟨n, hn⟩) (List.get?_eq_get hn)]
    · rw [List.get?_eq_none.mpr (Nat.le_of_not_lt hn),
        List.get?_eq_none.mpr (by simpa using Nat.le_of_not_lt hn)]
      rfl
  rw [hids]
  exact List.Nodup.map (fun a b h => by injection h) (List.nodup_range _)

/-! ### C4: compute_dom inverse-relation invariant -/

/-- C4: in a well-formed arena whose `dominated` lists are all empty before
the pass and whose recorded dominator handles resolve, one run of
`compute_dom` yields a state in which, for every block `b` with
`dominator = some d`, `b.id` occurs exactly once in the `dominated` list
of `d`'s block, and no block id occurs in the `dominated` list of a block
that is not its recorded dominator. -/
theorem compute_dom_spec (g : IRGenerator)
    (hwf : ∀ i b, g.blocks.get? i = some b → b.id = BlockId.idx i)
    (hempty : ∀ b ∈ g.blocks, b.dominated = [])
    (hdomres : ∀ b ∈ g.blocks, ∀ d, b.dominator = some d →
      ∃ bd, getBlock g d = some bd) :
    ∃ g', compute_dom g = some g' ∧
      (∀ i b d, g.blocks.get? i = some b → b.dominator = some d →
        ∃ bd', getBlock g' d = some bd' ∧ List.count b.id bd'.dominated = 1) ∧
      (∀ j bj', getBlock g' (BlockId.idx j) = some bj' →
        ∀ i bi, g.blocks.get? i = some bi → bi.id ∈ bj'.dominated →
        bi.dominator = some (BlockId.idx j)) := by
  obtain ⟨g', heq, hdomn, hpt⟩ := compute_dom_char g hdomres
  refine ⟨g', heq, ?_, ?_⟩
  · intro i b d hb hbd
    have hbmem : b ∈ g.blocks := List.get?_mem hb
    obtain ⟨bd, hbdres⟩ := hdomres b hbmem d hbd
    have hfin := hpt d bd hbdres
    refine ⟨_, hfin, ?_⟩
    have hbdmem : bd ∈ g.blocks := by
      cases d with
      | dummy => simp [getBlock] at hbdres
      | idx n => exact List.get?_mem hbdres
    show List.count b.id (bd.dominated ++
      (g.blocks.filter (fun c => c.dominator = some d)).map (fun c => c.id)) = 1
    rw [hempty bd hbdmem, List.nil_append]
    have hnodup : ((g.blocks.filter (fun c => c.dominator = some d)).map
        (fun c => c.id)).Nodup :=
      List.Sublist.nodup ((List.filter_sublist _).map _) (blocks_ids_nodup g hwf)
    have hmem : b.id ∈ (g.blocks.filter (fun c => c.dominator = some d)).map
        (fun c => c.id) :=
      List.mem_map.mpr ⟨b, List.mem_filter.mpr ⟨hbmem, by simp [hbd]⟩, rfl⟩
    exact List.count_eq_one_of_mem hnodup hmem
  · intro j bj' hbj' i bi hbi hmem
    obtain ⟨bj, hbjres⟩ : ∃ bj, getBlock g (BlockId.idx j) = some bj := by
      cases hg : getBlock g (BlockId.idx j) with
      | none => exact absurd hbj' (by simp [(hdomn _).mpr hg])
      | some bj => exact ⟨bj, rfl⟩
    have hfin := hpt (BlockId.idx j) bj hbjres
    rw [hfin] at hbj'
    injection hbj' with hbj2
    subst hbj2
    have hbjmem : bj ∈ g.blocks := List.get?_mem hbjres
    have hmem2 : bi.id ∈ bj.dominated ++
        (g.blocks.filter (fun c => c.dominator = some (BlockId.idx j))).map
          (fun c => c.id) := hmem
    rw [hempty bj hbjmem, List.nil_append] at hmem2
    obtain ⟨c, hcfil, hcid⟩ := List.mem_map.mp hmem2
    obtain ⟨hcmem, hcdom⟩ := List.mem_filter.mp hcfil
    simp only [decide_eq_true_eq] at hcdom
    obtain ⟨⟨n, hn⟩, hcget⟩ := List.get_of_mem hcmem
    have hcget2 : g.blocks.get? n = some c := by
      rw [List.get?_eq_get hn, hcget]
    have hcid2 := hwf n c hcget2
    have hbid2 := hwf i bi hbi
    rw [hcid2, hbid2] at hcid
    injection hcid with hni
    subst hni
    rw [hbi] at hcget2
    injection hcget2 with hcbi
    subst hcbi
    exact hcdom

/-- Witness for C4 on the concrete three-block chain `ctx3`
(`idx 0 → idx 1 → idx 2`, dominators `none, idx 0, idx 1`, all `dominated`
lists empty). -/
theorem compute_dom_spec_witness :
    ∃ g', compute_dom ctx3 = some g' ∧
      (∀ i b d, ctx3.blocks.get? i = some b → b.dominator = some d →
        ∃ bd', getBlock g' d = some bd' ∧ List.count b.id bd'.dominated = 1) ∧
      (∀ j bj', getBlock g' (BlockId.idx j) = some bj' →
        ∀ i bi, ctx3.blocks.get? i = some bi → bi.id ∈ bj'.dominated →
        bi.dominator = some (BlockId.idx j)) :=
  compute_dom_spec ctx3
    (by
      intro i b hb
      have hmap : (ctx3.blocks.get? i).map (fun c => c.id) = some b.id := by
        rw [hb]
        rfl
      rcases i with _ | _ | _ | i
      · exact (Option.some.inj ((by decide :
          (ctx3.blocks.get? 0).map (fun c => c.id) = some (BlockId.idx 0)).symm.trans
            hmap)).symm
      · exact (Option.some.inj ((by decide :
          (ctx3.blocks.get? 1).map (fun c => c.id) = some (BlockId.idx 1)).symm.trans
            hmap)).symm
      · exact (Option.some.inj ((by decide :
          (ctx3.blocks.get? 2).map (fun c => c.id) = some (BlockId.idx 2)).symm.trans
            hmap)).symm
      · have hnone : ctx3.blocks.get? (i + 3) = none := by
          apply List.get?_eq_none.mpr
          rw [show ctx3.blocks.length = 3 from by decide]
          omega
        rw [hnone] at hb
        exact Option.noConfusion hb)
    (by decide)
    (by
      intro b hb d hd
      have hmem : some d ∈ ctx3.blocks.map (fun c => c.dominator) :=
        List.mem_map.mpr ⟨b, hb, hd⟩
      rw [(by decide : ctx3.blocks.map (fun c => c.dominator)
        = [none, some (BlockId.idx 0), some (BlockId.idx 1)])] at hmem
      simp only [List.mem_cons, List.not_mem_nil, or_false] at hmem
      rcases hmem with h | h | h
      · exact Option.noConfusion h
      · injection h with h2
        subst h2
        exact ⟨_, rfl⟩
      · injection h with h2
        subst h2
        exact ⟨_, rfl⟩)

/-! ### bfs lemmas -/

/-- A duplicate-free list of handles that all resolve in the arena is no
longer than the arena. -/
theorem length_le_of_nodup_valid (g : IRGenerator) (l : List BlockId)
    (hnd : l.Nodup) (hv : ∀ b ∈ l, ∃ bb, getBlock g b = some bb) :
    l.length ≤ g.blocks.length := by
  have hsub : l ⊆ (List.range g.blocks.length).map BlockId.idx := by
    intro a ha
    obtain ⟨bb, hbb⟩ := hv a ha
    cases a with
    | dummy => simp [getBlock] at hbb
    | idx n =>
      have hn := getBlock_lt_length g n bb hbb
      exact List.mem_map.mpr ⟨n, List.mem_range.mpr hn, rfl⟩
  have h1 : l.toFinset.card = l.length := List.toFinset_card_of_nodup hnd
  have h2 : l.toFinset ⊆ ((List.range g.blocks.length).map BlockId.idx).toFinset := by
    intro a ha
    simp only [List.mem_toFinset] at ha ⊢
    exact hsub ha
  have h3 := Finset.card_le_card h2
  have h4 := ((List.range g.blocks.length).map BlockId.idx).toFinset_card_le
  have h5 : ((List.range g.blocks.length).map BlockId.idx).length
      = g.blocks.length := by simp
  omega

theorem testAndPush_cases (stop : BlockId) (st : List BlockId × List BlockId)
    (o : Option BlockId) :
    testAndPush stop st o = st ∨
    ∃ x, o = some x ∧ x ≠ stop ∧ x ∉ st.1 ∧
      testAndPush stop st o = (st.1 ++ [x], st.2 ++ [x]) := by
  cases o with
  | none => exact Or.inl rfl
  | some x =>
    by_cases hc : x ≠ stop ∧ x ∉ st.1
    · exact Or.inr ⟨x, rfl, hc.1, hc.2, by simp [testAndPush, hc]⟩
    · left
      simp only [testAndPush, if_neg hc]

/-- One `test_and_push` preserves the loop invariants: the result stays
duplicate-free, enqueued handles are in the result, all result handles
resolve, `stop` stays out, the old result is a prefix of the new one, and
result/queue grow together by at most one. -/
theorem testAndPush_master (g : IRGenerator) (stop : BlockId)
    (o : Option BlockId) (st : List BlockId × List BlockId)
    (hnd : st.1.Nodup) (hq : ∀ b ∈ st.2, b ∈ st.1)
    (hv : ∀ b ∈ st.1, ∃ bb, getBlock g b = some bb)
    (hs : stop ∉ st.1)
    (ho : ∀ x, o = some x → ∃ bx, getBlock g x = some bx) :
    (testAndPush stop st o).1.Nodup ∧
    (∀ b ∈ (testAndPush stop st o).2, b ∈ (testAndPush stop st o).1) ∧
    (∀ b ∈ (testAndPush stop st o).1, ∃ bb, getBlock g b = some bb) ∧
    stop ∉ (testAndPush stop st o).1 ∧
    (∃ t, (testAndPush stop st o).1 = st.1 ++ t) ∧
    (testAndPush stop st o).1.length + st.2.length
      = st.1.length + (testAndPush stop st o).2.length ∧
    st.1.length ≤ (testAndPush stop st o).1.length := by
  rcases testAndPush_cases stop st o with hcase | ⟨x, hox, hxs, hxm, hcase⟩
  · rw [hcase]
    exact ⟨hnd, hq, hv, hs, ⟨[], by simp⟩, by omega, Nat.le_refl _⟩
  · rw [hcase]
    refine ⟨?_, ?_, ?_, ?_, ⟨[x], rfl⟩,
      by simp only [List.length_append, List.length_singleton]; omega, by simp⟩
    · refine List.Nodup.append hnd (by simp) ?_
      intro a ha hx
      rw [List.mem_singleton] at hx
      subst hx
      exact hxm ha
    · intro b hb
      rcases List.mem_append.mp hb with hb2 | hb2
      · exact List.mem_append_left _ (hq b hb2)
      · exact List.mem_append_right _ hb2
    · intro b hb
      rcases List.mem_append.mp hb with hb2 | hb2
      · exact hv b hb2
      · rcases List.mem_singleton.mp hb2 with rfl
        exact ho b hox
    · intro hmem
      rcases List.mem_append.mp hmem with hm2 | hm2
      · exact hs hm2
      · exact hxs (List.mem_singleton.mp hm2).symm

/-- Invariant of the `bfs` while-loop, by induction on fuel: starting from
a duplicate-free `result` of resolving handles that contains the queue and
excludes `stop`, and with fuel exceeding the loop measure
`|queue| + 2·(|arena| − |result|)`, the loop terminates (never hits the
fuel bound), only appends to `result`, and preserves all invariants. -/
theorem bfsAux_master (g : IRGenerator) (stop : BlockId)
    (hclosed : ∀ b ∈ g.blocks,
      (∀ x, b.left = some x → ∃ bx, getBlock g x = some bx) ∧
      (∀ x, b.right = some x → ∃ bx, getBlock g x = some bx)) :
    ∀ fuel queue result,
      result.Nodup →
      (∀ b ∈ queue, b ∈ result) →
      (∀ b ∈ result, ∃ bb, getBlock g b = some bb) →
      stop ∉ result →
      queue.length + 2 * (g.blocks.length - result.length) < fuel →
      ∃ res, bfsAux g fuel queue result stop = some res ∧
        (∃ t, res = result ++ t) ∧ res.Nodup ∧ stop ∉ res ∧
        (∀ b ∈ res, ∃ bb, getBlock g b = some bb) := by
  intro fuel
  induction fuel with
  | zero =>
    intro queue result _ _ _ _ hmeas
    exact absurd hmeas (Nat.not_lt_zero _)
  | succ fuel ih =>
    intro queue result hnd hq hv hs hmeas
    cases queue with
    | nil => exact ⟨result, rfl, ⟨[], by simp⟩, hnd, hs, hv⟩
    | cons b rest =>
      obtain ⟨blk, hblk⟩ := hv b (hq b (List.mem_cons_self _ _))
      have hblkmem : blk ∈ g.blocks := by
        cases b with
        | dummy => simp [getBlock] at hblk
        | idx n => exact List.get?_mem hblk
      obtain ⟨hcl, hcr⟩ := hclosed blk hblkmem
      have hq0 : ∀ c ∈ rest, c ∈ result :=
        fun c hc => hq c (List.mem_cons_of_mem _ hc)
      obtain ⟨n1, q1, v1, s1, ⟨t1, p1⟩, e1, l1⟩ :=
        testAndPush_master g stop blk.left (result, rest) hnd hq0 hv hs hcl
      obtain ⟨n2, q2, v2, s2, ⟨t2, p2⟩, e2, l2⟩ :=
        testAndPush_master g stop blk.right
          (testAndPush stop (result, rest) blk.left) n1 q1 v1 s1 hcr
      have hlen2 : (testAndPush stop (testAndPush stop (result, rest) blk.left)
            blk.right).1.length ≤ g.blocks.length :=
        length_le_of_nodup_valid g _ n2 v2
      have hmeas2 : (testAndPush stop (testAndPush stop (result, rest) blk.left)
            blk.right).2.length +
          2 * (g.blocks.length - (testAndPush stop (testAndPush stop (result, rest)
            blk.left) blk.right).1.length) < fuel := by
        dsimp only [] at e1 l1
        simp only [List.length_cons] at hmeas
        omega
      obtain ⟨res, hres, ⟨t, ht⟩, hrnd, hrs, hrv⟩ := ih _ _ n2 q2 v2 s2 hmeas2
      refine ⟨res, ?_, ?_, hrnd, hrs, hrv⟩
      · simp only [bfsAux]
        rw [hblk]
        exact hres
      · refine ⟨t1 ++ t2 ++ t, ?_⟩
        rw [ht, p2, p1]
        dsimp only []
        simp [List.append_assoc]

/-! ### C1: bfs -/

/-- C1 counterexample: the claim quantifies over *every* pair of handles,
but when `start = stop` the returned sequence contains `stop` — `bfs`
places `start` in the result before the loop ever tests a handle against
`stop` (on the one-block context, `bfs(idx 0, idx 0) = [idx 0]`). -/
theorem bfs_claim_counterexample :
    ∃ res, bfs ctx1 (BlockId.idx 0) (BlockId.idx 0) = some res ∧
      BlockId.idx 0 ∈ res :=
  ⟨[BlockId.idx 0], by decide, by decide⟩

/-- C1 (amended with `start ≠ stop`): for distinct `start` and `stop` over
a graph with finitely many blocks whose `start` handle resolves and whose
stored `left`/`right` successor handles all resolve, `bfs(start, stop)`
returns a sequence whose first element is `start`, in which `stop` never
appears, in which every element appears at most once, and whose length is
bounded by the total number of blocks — regardless of cycles among
successor edges reachable from `start`. -/
theorem bfs_spec (g : IRGenerator) (start stop : BlockId)
    (hne : start ≠ stop)
    (hstart : ∃ b0, getBlock g start = some b0)
    (hclosed : ∀ b ∈ g.blocks,
      (∀ x, b.left = some x → ∃ bx, getBlock g x = some bx) ∧
      (∀ x, b.right = some x → ∃ bx, getBlock g x = some bx)) :
    ∃ res, bfs g start stop = some res ∧
      res.head? = some start ∧ stop ∉ res ∧ res.Nodup ∧
      res.length ≤ g.blocks.length := by
  obtain ⟨b0, hb0⟩ := hstart
  have hlen1 : 1 ≤ g.blocks.length := by
    cases start with
    | dummy => simp [getBlock] at hb0
    | idx n =>
      have := getBlock_lt_length g n b0 hb0
      omega
  have hmeas : [start].length + 2 * (g.blocks.length - [start].length)
      < 2 * g.blocks.length + 2 := by
    simp only [List.length_singleton]
    omega
  obtain ⟨res, hres, ⟨t, ht⟩, hrnd, hrs, hrv⟩ :=
    bfsAux_master g stop hclosed (2 * g.blocks.length + 2) [start] [start]
      (by simp)
      (by simp)
      (by
        intro b hb
        rw [List.mem_singleton] at hb
        subst hb
        exact ⟨b0, hb0⟩)
      (by simpa using fun e => hne e.symm)
      hmeas
  refine ⟨res, hres, ?_, hrs, hrnd, length_le_of_nodup_valid g res hrnd hrv⟩
  rw [ht]
  rfl

/-- Witness for the amended C1 on the three-block chain `ctx3`
(`idx 0 → idx 1 → idx 2`): `bfs(idx 0, idx 2)` is defined and satisfies
all four properties (it computes to `[idx 0, idx 1]`, the spec's §8
scenario). -/
theorem bfs_spec_witness :
    BlockId.idx 0 ≠ BlockId.idx 2 ∧
    (∃ res, bfs ctx3 (BlockId.idx 0) (BlockId.idx 2) = some res ∧
      res.head? = some (BlockId.idx 0) ∧ BlockId.idx 2 ∉ res ∧ res.Nodup ∧
      res.length ≤ ctx3.blocks.length) :=
  ⟨by decide,
   bfs_spec ctx3 (BlockId.idx 0) (BlockId.idx 2) (by decide)
     ⟨_, rfl⟩
     (by
       intro b hb
       constructor
       · intro x hx
         have hmem : some x ∈ ctx3.blocks.map (fun c => c.left) :=
           List.mem_map.mpr ⟨b, hb, hx⟩
         rw [(by decide : ctx3.blocks.map (fun c => c.left)
           = [some (BlockId.idx 1), some (BlockId.idx 2), none])] at hmem
         simp only [List.mem_cons, List.not_mem_nil, or_false] at hmem
         rcases hmem with h | h | h
         · injection h with h2
           subst h2
           exact ⟨_, rfl⟩
         · injection h with h2
           subst h2
           exact ⟨_, rfl⟩
         · exact Option.noConfusion h
       · intro x hx
         have hmem : some x ∈ ctx3.blocks.map (fun c => c.right) :=
           List.mem_map.mpr ⟨b, hb, hx⟩
         rw [(by decide : ctx3.blocks.map (fun c => c.right)
           = [none, none, none])] at hmem
         simp only [List.mem_cons, List.not_mem_nil, or_false] at hmem
         rcases hmem with h | h | h <;> exact Option.noConfusion h)⟩
